import Mathlib

/-!
# Verification of the color-utility core of `inkmcp`

Shallow embedding of `inkmcp/inkmcpops/color_utils.py` (hex parsing,
color normalization, LAB conversion, grayscale classification, SVG color
extraction and greedy palette auto-mapping), plus a spec-modelled version
of the matplotlib cleanup pass (`inkmcp/inkmcpops/matplotlib_utils.py`,
whose source is referenced by the tests but not part of the sources here).

Python strings are modelled as Lean `String`/`List Char`; Python machine
floats are modelled as real numbers (the float arithmetic of the LAB
pipeline is treated exactly); functions that raise `ValueError` are
modelled as `Option`-returning functions (`none` = the exception).
-/

namespace Inkmcp

/-! ## Python `int(s, 16)` semantics

`hex_to_rgb` and `normalize_color` validate hex digits by calling
Python's `int(h, 16)`, which is considerably more permissive than a plain
hex-digit scan: it strips surrounding whitespace, accepts an optional
sign, an optional `0x`/`0X` prefix, and single underscores between
digits (PEP 515).  We model that faithfully. -/

/-- Characters stripped by Python around an integer literal (`Py_ISSPACE`). -/
def isPyWS (c : Char) : Bool :=
  c = ' ' || c = '\t' || c = '\n' || c = '\x0d' || c = '\x0b' || c = '\x0c'

/-- Hexadecimal digit test (both cases), as accepted by `int(_, 16)`. -/
def isHexDig (c : Char) : Bool :=
  ('0' ≤ c && c ≤ '9') || ('a' ≤ c && c ≤ 'f') || ('A' ≤ c && c ≤ 'F')

/-- Value of a hexadecimal digit character. -/
def hexVal (c : Char) : Nat :=
  if '0' ≤ c && c ≤ '9' then c.toNat - 48
  else if 'a' ≤ c && c ≤ 'f' then c.toNat - 87
  else if 'A' ≤ c && c ≤ 'F' then c.toNat - 55
  else 0

/-- Digit tail of a base-16 literal: `('_'? digit)*` with the given
accumulator; a `'_'` must be followed by a digit. -/
def hexTail : List Char → Nat → Option Nat
  | [], acc => some acc
  | c :: cs, acc =>
    if c = '_' then
      match cs with
      | [] => none
      | d :: ds => if isHexDig d then hexTail ds (16 * acc + hexVal d) else none
    else if isHexDig c then hexTail cs (16 * acc + hexVal c) else none

/-- A nonempty base-16 digit sequence `digit ('_'? digit)*`. -/
def hexSeq : List Char → Option Nat
  | [] => none
  | c :: cs => if isHexDig c then hexTail cs (hexVal c) else none

/-- Magnitude part of `int(s, 16)`: optional `0x`/`0X` prefix (possibly
followed by one underscore), then a digit sequence. -/
def pyIntMag (cs : List Char) : Option Nat :=
  match cs with
  | c0 :: c1 :: rest =>
    if c0 = '0' && (c1 = 'x' || c1 = 'X') then
      match rest with
      | [] => none
      | r0 :: rs => if r0 = '_' then hexSeq rs else hexSeq (r0 :: rs)
    else hexSeq (c0 :: c1 :: rest)
  | _ => hexSeq cs

/-- Signed body of `int(s, 16)` (after whitespace stripping). -/
def pyIntBody : List Char → Option Int
  | [] => none
  | c :: cs =>
    if c = '+' then (pyIntMag cs).map Int.ofNat
    else if c = '-' then (pyIntMag cs).map (fun n => -(n : Int))
    else (pyIntMag (c :: cs)).map Int.ofNat

/-- Strip Python whitespace from both ends of a character list. -/
def stripWS (cs : List Char) : List Char :=
  ((cs.dropWhile isPyWS).reverse.dropWhile isPyWS).reverse

/-- Python's `int(s, 16)`: `none` models the raised `ValueError`. -/
def pyInt16 (cs : List Char) : Option Int :=
  pyIntBody (stripWS cs)

/-! ## `hex_to_rgb` / `rgb_to_hex` (color_utils.py lines 42–54) -/

/-- `hex_to_rgb`: `h = hex_color.lstrip("#")`; a 3-character `h` has each
character doubled; a (resulting) length other than 6 raises; otherwise the
three 2-character slices are parsed with `int(_, 16)`.  `none` models the
`ValueError` raised on bad length or by `int`. -/
def hex_to_rgb (hex_color : String) : Option (Int × Int × Int) :=
  let h0 := hex_color.data.dropWhile (· = '#')
  let h := match h0 with
    | [a, b, c] => [a, a, b, b, c, c]
    | other => other
  if h.length = 6 then
    match pyInt16 (h.take 2), pyInt16 ((h.drop 2).take 2), pyInt16 (h.drop 4) with
    | some r, some g, some b => some (r, g, b)
    | _, _, _ => none
  else none

/-- Lowercase hexadecimal digit character for a value `< 16`. -/
def hexDigitChar (n : Nat) : Char :=
  if n < 10 then Char.ofNat (48 + n) else Char.ofNat (87 + n)

/-- Minimal-length lowercase hexadecimal representation of a natural
number (big-endian), via `Nat.toDigits`. -/
def natToHex (n : Nat) : List Char := Nat.toDigits 16 n

/-- Python's `f"{n:02x}"`: zero-pad to total width 2 (the sign, when
present, counts towards the width and precedes the padding). -/
def format02x (n : Int) : List Char :=
  if n < 0 then
    '-' :: (List.replicate (1 - (natToHex n.natAbs).length) '0' ++ natToHex n.natAbs)
  else
    List.replicate (2 - (natToHex n.toNat).length) '0' ++ natToHex n.toNat

/-- `rgb_to_hex`: `f"#{r:02x}{g:02x}{b:02x}"`. -/
def rgb_to_hex (r g b : Int) : String :=
  String.mk ('#' :: (format02x r ++ format02x g ++ format02x b))

/-! ## `normalize_color` (color_utils.py lines 138–173) -/

/-- The `NAMED_COLORS` lookup table (color_utils.py lines 19–35). -/
def NAMED_COLORS : List (String × String) :=
  [("black", "#000000"), ("white", "#ffffff"), ("red", "#ff0000"),
   ("green", "#008000"), ("blue", "#0000ff"), ("yellow", "#ffff00"),
   ("cyan", "#00ffff"), ("magenta", "#ff00ff"), ("orange", "#ffa500"),
   ("purple", "#800080"), ("pink", "#ffc0cb"), ("brown", "#a52a2a"),
   ("gray", "#808080"), ("grey", "#808080"), ("silver", "#c0c0c0"),
   ("navy", "#000080"), ("teal", "#008080"), ("maroon", "#800000"),
   ("olive", "#808000"), ("lime", "#00ff00"), ("aqua", "#00ffff"),
   ("fuchsia", "#ff00ff"), ("coral", "#ff7f50"), ("salmon", "#fa8072"),
   ("gold", "#ffd700"), ("khaki", "#f0e68c"), ("plum", "#dda0dd"),
   ("tan", "#d2b48c"), ("beige", "#f5f5dc"), ("ivory", "#fffff0"),
   ("indigo", "#4b0082"), ("violet", "#ee82ee"), ("crimson", "#dc143c"),
   ("tomato", "#ff6347"), ("steelblue", "#4682b4"), ("darkblue", "#00008b"),
   ("darkgreen", "#006400"), ("darkred", "#8b0000"), ("lightblue", "#add8e6"),
   ("lightgreen", "#90ee90"), ("lightgray", "#d3d3d3"), ("lightgrey", "#d3d3d3"),
   ("darkgray", "#a9a9a9"), ("darkgrey", "#a9a9a9")]

/-- ASCII decimal digit test (`\d` of the `rgb()` regex). -/
def isDecDig (c : Char) : Bool := '0' ≤ c && c ≤ '9'

/-- Decimal value of a digit run. -/
def decValue (cs : List Char) : Nat :=
  cs.foldl (fun acc c => 10 * acc + (c.toNat - 48)) 0

/-- Match `\s*` then `(\d+)` at the head of the input, returning the
captured value and the rest. -/
def matchWsNum (cs : List Char) : Option (Nat × List Char) :=
  let r := cs.dropWhile isPyWS
  let ds := r.takeWhile isDecDig
  if ds = [] then none else some (decValue ds, r.drop ds.length)

/-- Match a literal character after `\s*`. -/
def matchWsLit (lit : Char) (cs : List Char) : Option (List Char) :=
  match cs.dropWhile isPyWS with
  | c :: rest => if c = lit then some rest else none
  | [] => none

/-- `_RGB_FUNC_PATTERN.match`: the anchored regex
`rgb\(\s*(\d+)\s*,\s*(\d+)\s*,\s*(\d+)\s*\)` (`re.match` anchors at the
start but allows trailing input after the closing parenthesis). -/
def matchRgbFunc (cs : List Char) : Option (Nat × Nat × Nat) :=
  match cs with
  | 'r' :: 'g' :: 'b' :: '(' :: rest =>
    (matchWsNum rest).bind fun (r, s1) =>
    (matchWsLit ',' s1).bind fun s2 =>
    (matchWsNum s2).bind fun (g, s3) =>
    (matchWsLit ',' s3).bind fun s4 =>
    (matchWsNum s4).bind fun (b, s5) =>
    (matchWsLit ')' s5).map fun _ => (r, g, b)
  | _ => none

/-- Python `str.lower` (ASCII model). -/
def pyLower (cs : List Char) : List Char := cs.map Char.toLower

/-- `normalize_color` (color_utils.py lines 138–173): strip + lowercase,
absence keywords, named-color table, `#`-hex (3-digit doubling, 6-digit
validated by `int(h, 16)`), `rgb(r,g,b)` with bounds check; anything else
(including `url(...)`) yields `none`. -/
def normalize_color (color_str : String) : Option String :=
  let cs := pyLower (stripWS color_str.data)
  let s := String.mk cs
  if s = "" || s = "none" || s = "transparent" || s = "inherit" ||
     s = "currentcolor" then none
  else if (NAMED_COLORS.lookup s).isSome then NAMED_COLORS.lookup s
  else if cs.head? = some '#' then
    let h0 := cs.dropWhile (· = '#')
    let h := match h0 with
      | [a, b, c] => [a, a, b, b, c, c]
      | other => other
    if h.length = 6 then
      if (pyInt16 h).isSome then some (String.mk ('#' :: h)) else none
    else none
  else
    match matchRgbFunc cs with
    | some (r, g, b) =>
      if r ≤ 255 && g ≤ 255 && b ≤ 255 then
        some (rgb_to_hex (r : Int) (g : Int) (b : Int))
      else none
    | none => none

/-- Canonical color shape from the spec's data model: `#`-prefixed,
exactly six lowercase hexadecimal digits. -/
def isLowerHexDigit (c : Char) : Bool :=
  decide (c ∈ (['0', '1', '2', '3', '4'] ++ ['5', '6', '7', '8', '9']
               ++ ['a', 'b', 'c'] ++ ['d', 'e', 'f']))

/-- A string of the canonical form `#rrggbb` (lowercase). -/
def isCanonicalHex (s : String) : Bool :=
  match s.data with
  | '#' :: rest => rest.length = 6 && rest.all isLowerHexDigit
  | _ => false

/-! ## LAB conversion and perceptual distance (color_utils.py lines 57–99)

Python float arithmetic is modelled over `ℝ`. -/

/-- A CIE LAB triple `(L, a, b)`. -/
abbrev Lab : Type := ℝ × ℝ × ℝ

/-- The `linearize` helper of `rgb_to_lab`: channel to linear sRGB. -/
noncomputable def linearize (c : Int) : ℝ :=
  let x : ℝ := (c : ℝ) / 255
  if x ≤ 0.04045 then x / 12.92 else ((x + 0.055) / 1.055) ^ (2.4 : ℝ)

/-- The CIE `f(t)` nonlinearity used by `rgb_to_lab`. -/
noncomputable def labF (t : ℝ) : ℝ :=
  if t > ((6 : ℝ) / 29) ^ (3 : ℕ) then t ^ ((1 : ℝ) / 3)
  else t / (3 * ((6 : ℝ) / 29) * ((6 : ℝ) / 29)) + 4 / 29

/-- `rgb_to_lab` (color_utils.py lines 57–89): linearized sRGB → XYZ (D65)
→ LAB. -/
noncomputable def rgb_to_lab (r g b : Int) : Lab :=
  let rl := linearize r
  let gl := linearize g
  let bl := linearize b
  let x := rl * 0.4124564 + gl * 0.3575761 + bl * 0.1804375
  let y := rl * 0.2126729 + gl * 0.7151522 + bl * 0.0721750
  let z := rl * 0.0193339 + gl * 0.1191920 + bl * 0.9503041
  let fx := labF (x / 0.95047)
  let fy := labF (y / 1.00000)
  let fz := labF (z / 1.08883)
  (116 * fy - 16, 500 * (fx - fy), 200 * (fy - fz))

/-- `hex_to_lab`: composition with `hex_to_rgb`; `none` models the
propagated `ValueError`. -/
noncomputable def hex_to_lab (s : String) : Option Lab :=
  (hex_to_rgb s).map fun v => rgb_to_lab v.1 v.2.1 v.2.2

/-- `delta_e` (CIE76): Euclidean distance in LAB space. -/
noncomputable def delta_e (lab1 lab2 : Lab) : ℝ :=
  Real.sqrt ((lab1.1 - lab2.1) ^ 2 + (lab1.2.1 - lab2.2.1) ^ 2 +
    (lab1.2.2 - lab2.2.2) ^ 2)

/-! ## `is_grayscale` (color_utils.py lines 106–116) -/

/-- LAB chroma `sqrt(a*a + b*b)`. -/
noncomputable def chroma (lab : Lab) : ℝ :=
  Real.sqrt (lab.2.1 * lab.2.1 + lab.2.2 * lab.2.2)

/-- `is_grayscale` (threshold defaults to `15.0` in the source): `true`
iff the chroma is below the threshold; a `ValueError` from the conversion
(modelled by `none`) yields `false`. -/
noncomputable def is_grayscale (hex_color : String) (threshold : ℝ) : Bool :=
  match hex_to_lab hex_color with
  | none => false
  | some lab => decide (chroma lab < threshold)

/-! ## `auto_map_colors` (color_utils.py lines 236–296) -/

/-- Python `color_map[src] = v`: replace the value at an existing key in
place, else append the binding (insertion-ordered dict). -/
def dictInsert : List (String × String) → String → String → List (String × String)
  | [], k, v => [(k, v)]
  | (k', v') :: rest, k, v =>
    if k' = k then (k, v) :: rest else (k', v') :: dictInsert rest k v

/-- The inner `for p_hex, p_lab in palette_labs` selection loop of
`auto_map_colors`: entries in `used` are skipped, the best (strictly
smaller distance) match and its distance are tracked, starting from
`best_dist = inf, best_match = None` (modelled as the `Option`
accumulator). -/
noncomputable def scanBest (srcLab : Lab) (used : List String) :
    List (String × Lab) → Option (String × ℝ) → Option (String × ℝ)
  | [], best => best
  | (p, l) :: rest, best =>
    if p ∈ used then scanBest srcLab used rest best
    else
      match best with
      | none => scanBest srcLab used rest (some (p, delta_e srcLab l))
      | some (q, bd) =>
        if delta_e srcLab l < bd then scanBest srcLab used rest (some (p, delta_e srcLab l))
        else scanBest srcLab used rest (some (q, bd))

/-- The per-source selection of `auto_map_colors`: the scan over unused
palette entries and, when it found nothing (`best_match is None`, i.e.
`best_dist` still infinite), the fallback rescan over all entries. -/
noncomputable def codeBest (srcLab : Lab) (used : List String)
    (pl : List (String × Lab)) : Option (String × ℝ) :=
  match scanBest srcLab used pl none with
  | some b => some b
  | none => scanBest srcLab [] pl none

/-- The main `for src_color, _count in found_colors` loop of
`auto_map_colors`.  A source whose LAB conversion fails is skipped; the
mapping is recorded (and the destination marked used) only when the
chosen destination differs from the source.  (A `best_match` drawn from
`palette_labs` is never the empty string — the empty string does not
parse — so Python's truthiness test on it is `Option`-emptiness.) -/
noncomputable def autoMapGo (pl : List (String × Lab)) :
    List (String × Nat) → List (String × String) → List String → List (String × String)
  | [], cmap, _ => cmap
  | (src, _cnt) :: rest, cmap, used =>
    match hex_to_lab src with
    | none => autoMapGo pl rest cmap used
    | some srcLab =>
      match codeBest srcLab used pl with
      | none => autoMapGo pl rest cmap used
      | some (bm, _d) =>
        if bm ≠ src then autoMapGo pl rest (dictInsert cmap src bm) (bm :: used)
        else autoMapGo pl rest cmap used

/-- `auto_map_colors` (color_utils.py lines 236–296): empty input gives
the empty mapping; palette LAB values are precomputed, silently skipping
unparseable entries; then the greedy loop runs.  The returned Python dict
is modelled as its insertion-ordered association list. -/
noncomputable def auto_map_colors (found_colors : List (String × Nat))
    (palette : List String) : List (String × String) :=
  if found_colors.isEmpty || palette.isEmpty then []
  else
    let palette_labs := palette.filterMap fun p => (hex_to_lab p).map fun l => (p, l)
    autoMapGo palette_labs found_colors [] []

/-! ## The auto-mapper as described by spec §4.4

A second definition following the wording of the spec, used to compare
the source algorithm against it (claim about refinement): "among unused
palette entries, pick the one with minimal deltaE" is rendered as a
minimum selection over the filtered list (earliest entry on ties — the
spec fixes the iteration order and the greedy procedure is demanded to
be deterministic), with the global-closest fallback of step 4. -/

/-- First entry of the list minimizing the distance to `srcLab`. -/
noncomputable def minByDist (srcLab : Lab) : List (String × Lab) → Option (String × Lab)
  | [] => none
  | x :: rest =>
    match minByDist srcLab rest with
    | none => some x
    | some y => if delta_e srcLab y.2 < delta_e srcLab x.2 then some y else some x

/-- Spec §4.4 steps 3–4: the destination chosen for one source color —
the minimal-deltaE unused entry, or, when no unused entry remains, the
globally closest entry. -/
noncomputable def specAssign (pl : List (String × Lab)) (used : List String)
    (srcLab : Lab) : Option String :=
  match minByDist srcLab (pl.filter fun x => x.1 ∉ used) with
  | some y => some y.1
  | none => (minByDist srcLab pl).map Prod.fst

/-- Spec §4.4 step 2 iteration: sources in the given order, unparseable
ones skipped, self-mappings suppressed (not recorded, not marked used). -/
noncomputable def specAutoMapGo (pl : List (String × Lab)) :
    List (String × Nat) → List (String × String) → List String → List (String × String)
  | [], cmap, _ => cmap
  | (src, _cnt) :: rest, cmap, used =>
    match hex_to_lab src with
    | none => specAutoMapGo pl rest cmap used
    | some srcLab =>
      match specAssign pl used srcLab with
      | none => specAutoMapGo pl rest cmap used
      | some bm =>
        if bm = src then specAutoMapGo pl rest cmap used
        else specAutoMapGo pl rest (dictInsert cmap src bm) (bm :: used)

/-- The auto-mapper exactly as spec §4.4 words it (steps 1–5). -/
noncomputable def spec_auto_map_colors (found_colors : List (String × Nat))
    (palette : List String) : List (String × String) :=
  if found_colors.isEmpty || palette.isEmpty then []
  else
    specAutoMapGo (palette.filterMap fun p => (hex_to_lab p).map fun l => (p, l))
      found_colors [] []

/-! ## Bridging the fold-style scan and the minimum-selection of §4.4 -/

/-- Left-biased combination of two best-so-far candidates: the right one
wins only on strictly smaller distance. -/
noncomputable def combineB : Option (String × ℝ) → Option (String × ℝ) → Option (String × ℝ)
  | none, m => m
  | some b, none => some b
  | some b, some y => if y.2 < b.2 then some y else some b

/-- `minByDist` together with the distance of the selected entry. -/
noncomputable def mdist (srcLab : Lab) (l : List (String × Lab)) : Option (String × ℝ) :=
  (minByDist srcLab l).map fun z => (z.1, delta_e srcLab z.2)

/-! ## `extract_colors` (color_utils.py lines 176–208)

One element of the parsed document as visited by `svg_root.iter()`:
`tagIsStr` models `isinstance(elem.tag, str)` (comments and processing
instructions have non-string tags), `attrs` the attribute mapping.  The
document is represented by the list of elements `iter()` yields in
document order — the only part of the tree `extract_colors` consults. -/

structure SvgElem where
  tagIsStr : Bool
  attrs : List (String × String)

/-- `elem.get(name, "")`. -/
def getAttr (e : SvgElem) (name : String) : String :=
  (e.attrs.lookup name).getD ""

/-- Match a literal character-list prefix, returning the rest. -/
def dropPrefixQ : List Char → List Char → Option (List Char)
  | [], rest => some rest
  | _ :: _, [] => none
  | a :: ps, c :: rest => if c = a then dropPrefixQ ps rest else none

/-- The `\s*([^;]+)` part of the property regex after the colon: the
greedy whitespace run backtracks one character when needed so that the
one-or-more capture can succeed (re backtracking semantics). -/
def capAfterColon (r3 : List Char) : Option (List Char) :=
  let w := r3.takeWhile isPyWS
  let rest := r3.drop w.length
  match rest with
  | c :: _ =>
    if c = ';' then
      match w.getLast? with
      | some lc => some [lc]
      | none => none
    else some (rest.takeWhile (· ≠ ';'))
  | [] =>
    match w.getLast? with
    | some lc => some [lc]
    | none => none

/-- Match `prop\s*:\s*([^;]+)` at the head of the input. -/
def matchPropAt (prop cs : List Char) : Option (List Char) :=
  match dropPrefixQ prop cs with
  | none => none
  | some r1 =>
    match r1.dropWhile isPyWS with
    | ':' :: r3 => capAfterColon r3
    | _ => none

/-- `re.search`: try the pattern at every start position, left to
right. -/
def searchProp (prop : List Char) : List Char → Option (List Char)
  | [] => none
  | c :: cs =>
    match matchPropAt prop (c :: cs) with
    | some cap => some cap
    | none => searchProp prop cs

/-- The color a property match in the inline style contributes:
`re.search(rf"{prop}\s*:\s*([^;]+)", style)` on a non-empty style
attribute, with the capture normalized. -/
def styleColor (prop : String) (e : SvgElem) : Option String :=
  let style := getAttr e "style"
  if style = "" then none
  else
    match searchProp prop.data style.data with
    | some cap => normalize_color (String.mk cap)
    | none => none

/-- The color a non-empty direct attribute contributes. -/
def attrColor (name : String) (e : SvgElem) : Option String :=
  let v := getAttr e name
  if v = "" then none else normalize_color v

/-- The normalized colors one element contributes, one per occurrence
site, in the order the code checks them (style fill, style stroke,
attribute fill, attribute stroke); a non-string tag contributes
nothing. -/
def elemColors (e : SvgElem) : List String :=
  if e.tagIsStr then
    [styleColor "fill" e, styleColor "stroke" e,
     attrColor "fill" e, attrColor "stroke" e].filterMap id
  else []

/-- `extract_colors`: the frequency table over the iteration sequence
(the returned Counter-dict, queried at one color). -/
def extract_colors (doc : List SvgElem) (c : String) : Nat :=
  (doc.flatMap elemColors).count c

/-! ## The plotting-library cleanup pass (spec §4.6)

`matplotlib_utils.py` (with `cleanup_matplotlib_svg`, `_parse_dimension`,
`_remove_background_rects`, `_remove_redundant_styles`,
`_normalize_matplotlib_fonts`) is imported by `batch_operations.py` and
exercised by `tests/test_batch.py`, but the module itself is not among
the sources; the cleanup pass below is therefore modelled from the
wording of spec §4.6. -/

/-- Modelled from the spec: "parsed tolerant of unit suffixes `px`,`mm`,
default 0 on parse failure" — a decimal number with optional fractional
part; parsed floats are represented by rationals. -/
def parseDecimal (cs : List Char) : Option ℚ :=
  let ip := cs.takeWhile isDecDig
  let rest := cs.drop ip.length
  if ip = [] then none
  else
    match rest with
    | [] => some ((decValue ip : ℚ))
    | '.' :: frac =>
      if frac.all isDecDig && !frac.isEmpty then
        some ((decValue ip : ℚ) + (decValue frac : ℚ) / (10 : ℚ) ^ frac.length)
      else none
    | _ => none

/-- Modelled from the spec: `_parse_dimension` — strip a trailing `px` or
`mm` suffix, parse the decimal, default `0` on failure (the source module
is absent; behavior per spec §4.6 step 1 and the `_parse_dimension`
tests). -/
def parse_dimension (s : String) : ℚ :=
  let cs := s.data
  let core :=
    if cs.length ≥ 2 && (decide (cs.drop (cs.length - 2) = ['p', 'x'])
        || decide (cs.drop (cs.length - 2) = ['m', 'm'])) then
      cs.take (cs.length - 2)
    else cs
  (parseDecimal core).getD 0

/-- Modelled from the spec: a global CSS rule of an embedded style block
— a universal (`*`) or tag selector, with its declarations. -/
structure CssRule where
  selector : Option String
  decls : List (String × String)

/-- Modelled from the spec: one document element — tag, attribute map,
the inline style attribute as its parsed `;`-separated declaration list
(spec §3 data model), and, for `<style>` elements, the CSS rules the
block defines. -/
structure MElem where
  tag : String
  attrs : List (String × String)
  style : List (String × String)
  rules : List CssRule

/-- Modelled from the spec: the document — the root's attributes (width,
height, viewBox) and its elements. -/
structure MDoc where
  rootAttrs : List (String × String)
  elems : List MElem

/-- Modelled from the spec: `elem.get(name, "")` on a cleanup element. -/
def getAttrM (e : MElem) (name : String) : String :=
  (e.attrs.lookup name).getD ""

/-- Modelled from the spec: split on whitespace (for `viewBox`). -/
def splitWSAux : List Char → List Char → List (List Char)
  | [], acc => if acc = [] then [] else [acc.reverse]
  | c :: cs, acc =>
    if isPyWS c then
      if acc = [] then splitWSAux cs [] else acc.reverse :: splitWSAux cs []
    else splitWSAux cs (c :: acc)

/-- Modelled from the spec: whitespace-separated words. -/
def splitWS (cs : List Char) : List (List Char) := splitWSAux cs []

/-- Modelled from the spec: "canvas dimension taken from the root's
`width`/`height` if present, else from its `viewBox`". -/
def canvasDims (doc : MDoc) : ℚ × ℚ :=
  let w := (doc.rootAttrs.lookup "width").getD ""
  let h := (doc.rootAttrs.lookup "height").getD ""
  if w ≠ "" && h ≠ "" then (parse_dimension w, parse_dimension h)
  else
    match splitWS ((doc.rootAttrs.lookup "viewBox").getD "").data with
    | [_, _, w3, h4] => ((parseDecimal w3).getD 0, (parseDecimal h4).getD 0)
    | _ => (0, 0)

/-- Modelled from the spec: an element's resolved fill color — the inline
style's `fill` declaration if any, else the direct `fill` attribute,
normalized. -/
def resolvedFill (e : MElem) : Option String :=
  match e.style.lookup "fill" with
  | some v => normalize_color v
  | none =>
    match e.attrs.lookup "fill" with
    | some v => normalize_color v
    | none => none

/-- Modelled from the spec: §4.6 step 1 — a rectangle whose resolved fill
is white AND whose width and height each cover at least the canvas
dimension. -/
def isBackgroundRect (cw ch : ℚ) (e : MElem) : Bool :=
  e.tag = "rect" && resolvedFill e = some "#ffffff"
    && cw ≤ parse_dimension (getAttrM e "width")
    && ch ≤ parse_dimension (getAttrM e "height")

/-- Modelled from the spec: §4.6 step 1, removing every background rect
and counting one modification per removed element. -/
def removeBackgroundRects (doc : MDoc) : MDoc × Nat :=
  let cw := (canvasDims doc).1
  let ch := (canvasDims doc).2
  let kept := doc.elems.filter fun e => !isBackgroundRect cw ch e
  (⟨doc.rootAttrs, kept⟩, doc.elems.length - kept.length)

/-- Modelled from the spec: whether a global selector rule matches an
element (universal selector, or the element's tag). -/
def ruleMatches (r : CssRule) (e : MElem) : Bool :=
  match r.selector with
  | none => true
  | some t => e.tag = t

/-- Modelled from the spec: inline declarations onto an element's own
style "so visual effect is preserved" — the inline style attribute
outranks stylesheet rules, so only properties not already declared inline
are added. -/
def applyDecls (decls : List (String × String)) (style : List (String × String)) :
    List (String × String) :=
  decls.foldl (fun st pv => if (st.lookup pv.1).isSome then st else st ++ [pv]) style

/-- Modelled from the spec: inline every matching rule onto one
element. -/
def inlineRules (rules : List CssRule) (e : MElem) : MElem :=
  ⟨e.tag, e.attrs,
   rules.foldl (fun st r => if ruleMatches r e then applyDecls r.decls st else st) e.style,
   e.rules⟩

/-- Modelled from the spec: §4.6 step 2 — inline the global rules of
every embedded `<style>` block onto the matching remaining elements, then
remove the blocks, one modification per removed block. -/
def removeStyleBlocks (doc : MDoc) : MDoc × Nat :=
  let rules := (doc.elems.filter fun e => e.tag = "style").flatMap MElem.rules
  let remaining := doc.elems.filter fun e => !(e.tag = "style" : Bool)
  (⟨doc.rootAttrs, remaining.map (inlineRules rules)⟩,
   doc.elems.length - remaining.length)

/-- Modelled from the spec: does the second list start with the first? -/
def startsWithSeg : List Char → List Char → Bool
  | [], _ => true
  | _ :: _, [] => false
  | a :: ps, c :: rest => a = c && startsWithSeg ps rest

/-- Modelled from the spec: substring containment test. -/
def hasSeg (needle : List Char) : List Char → Bool
  | [] => needle.isEmpty
  | c :: rest => startsWithSeg needle (c :: rest) || hasSeg needle rest

/-- Modelled from the spec: the plotting library's default font marker
(`DejaVu`, per the test fixtures). -/
def MPL_FONT_MARKER : List Char := "DejaVu".data

/-- Modelled from the spec: "a standard portable font stack". -/
def PORTABLE_STACK : String := "Arial, Helvetica, sans-serif"

/-- Modelled from the spec: whether the element's `font-family`
declaration contains the plotting library's default font name. -/
def hasMplFont (e : MElem) : Bool :=
  match e.style.lookup "font-family" with
  | some v => hasSeg MPL_FONT_MARKER v.data
  | none => false

/-- Modelled from the spec: §4.6 step 3 on one element — rewrite the
`font-family` declaration to the portable stack when it references the
library font. -/
def normalizeFontElem (e : MElem) : MElem :=
  if hasMplFont e then
    ⟨e.tag, e.attrs,
     e.style.map fun pv =>
       if pv.1 = "font-family" then (pv.1, PORTABLE_STACK) else pv,
     e.rules⟩
  else e

/-- Modelled from the spec: §4.6 step 3 — one modification per element
whose style was rewritten. -/
def normalizeFonts (doc : MDoc) : MDoc × Nat :=
  (⟨doc.rootAttrs, doc.elems.map normalizeFontElem⟩,
   (doc.elems.filter hasMplFont).length)

/-- Modelled from the spec: `cleanup` composes, in order, background-rect
removal, style-block removal and font normalization, summing their
counts. -/
def cleanup (doc : MDoc) : MDoc × Nat :=
  let r1 := removeBackgroundRects doc
  let r2 := removeStyleBlocks r1.1
  let r3 := normalizeFonts r2.1
  (r3.1, r1.2 + r2.2 + r3.2)

theorem combineB_none_left (m : Option (String × ℝ)) : combineB none m = m := rfl

theorem combineB_none_right (a : Option (String × ℝ)) : combineB a none = a := by
  rcases a with _ | a <;> rfl

theorem combineB_assoc (a b c : Option (String × ℝ)) :
    combineB (combineB a b) c = combineB a (combineB b c) := by
  rcases a with _ | a
  · rfl
  rcases b with _ | b
  · rfl
  rcases c with _ | c
  · rw [combineB_none_right, combineB_none_right]
  show combineB (if b.2 < a.2 then some b else some a) (some c)
      = combineB (some a) (if c.2 < b.2 then some c else some b)
  by_cases h1 : b.2 < a.2 <;> by_cases h2 : c.2 < b.2 <;>
    simp only [h1, h2, if_true, if_false, ite_true, ite_false, combineB] <;>
    split_ifs <;> first | rfl | (exfalso; linarith)

theorem mdist_cons (s : Lab) (x : String × Lab) (l : List (String × Lab)) :
    mdist s (x :: l) = combineB (some (x.1, delta_e s x.2)) (mdist s l) := by
  rcases h : minByDist s l with _ | y
  · unfold mdist
    simp only [minByDist, h]
    rfl
  · unfold mdist
    simp only [minByDist, h, combineB, Option.map_some']
    by_cases hd : delta_e s y.2 < delta_e s x.2 <;>
      simp [hd]

/-- The fold-with-`inf` scan computes the left-biased minimum over the
entries not in `used`, merged onto the incoming accumulator. -/
theorem scanBest_eq_combine (s : Lab) (used : List String) :
    ∀ (pl : List (String × Lab)) (best : Option (String × ℝ)),
      scanBest s used pl best
        = combineB best (mdist s (pl.filter fun x => x.1 ∉ used)) := by
  intro pl
  induction pl with
  | nil =>
    intro best
    have hm : mdist s (List.filter (fun x => decide (x.1 ∉ used)) []) = none := rfl
    rw [hm, combineB_none_right]
    rfl
  | cons x rest ih =>
    intro best
    rcases x with ⟨p, l⟩
    by_cases hp : p ∈ used
    · have h1 : scanBest s used ((p, l) :: rest) best = scanBest s used rest best := by
        simp [scanBest, hp]
      have h2 : List.filter (fun x => decide (x.1 ∉ used)) ((p, l) :: rest)
          = List.filter (fun x => decide (x.1 ∉ used)) rest := by
        rw [List.filter_cons]
        simp [hp]
      rw [h1, h2]
      exact ih best
    · have h2 : List.filter (fun x => decide (x.1 ∉ used)) ((p, l) :: rest)
          = (p, l) :: List.filter (fun x => decide (x.1 ∉ used)) rest := by
        rw [List.filter_cons]
        simp [hp]
      have hstep : scanBest s used ((p, l) :: rest) best
          = scanBest s used rest (combineB best (some (p, delta_e s l))) := by
        rcases best with _ | ⟨q, bd⟩
        · simp [scanBest, hp, combineB]
        · simp only [scanBest, hp, if_false, combineB]
          split_ifs <;> rfl
      rw [hstep, ih, h2, mdist_cons, ← combineB_assoc]

theorem filter_not_mem_nil (pl : List (String × Lab)) :
    (pl.filter fun x => x.1 ∉ ([] : List String)) = pl := by
  simp

/-- The two-phase selection of the source (unused scan, then global
fallback) picks exactly the destination described by spec §4.4. -/
theorem codeBest_eq_specAssign (s : Lab) (used : List String) (pl : List (String × Lab)) :
    (codeBest s used pl).map Prod.fst = specAssign pl used s := by
  unfold codeBest specAssign
  rw [scanBest_eq_combine, scanBest_eq_combine, filter_not_mem_nil,
    combineB_none_left, combineB_none_left]
  unfold mdist
  rcases h : minByDist s (pl.filter fun x => x.1 ∉ used) with _ | y
  · rcases h2 : minByDist s pl with _ | z <;> rfl
  · rfl

/-- The main loops agree (for every palette table and accumulator). -/
theorem autoMapGo_eq_spec (pl : List (String × Lab)) :
    ∀ (rest : List (String × Nat)) (cmap : List (String × String)) (used : List String),
      autoMapGo pl rest cmap used = specAutoMapGo pl rest cmap used := by
  intro rest
  induction rest with
  | nil => intro cmap used; rfl
  | cons x rest ih =>
    intro cmap used
    rcases x with ⟨src, cnt⟩
    rcases hl : hex_to_lab src with _ | slab
    · simp only [autoMapGo, specAutoMapGo, hl]
      exact ih cmap used
    · have hb := codeBest_eq_specAssign slab used pl
      simp only [autoMapGo, specAutoMapGo, hl]
      rcases hc : codeBest slab used pl with _ | b
      · rw [hc] at hb
        have hs : specAssign pl used slab = none := by
          rw [← hb]; rfl
        rw [hs]
        exact ih cmap used
      · rcases b with ⟨bm, d⟩
        rw [hc] at hb
        have hs : specAssign pl used slab = some bm := by
          rw [← hb]; rfl
        rw [hs]
        show (if bm ≠ src then autoMapGo pl rest (dictInsert cmap src bm) (bm :: used)
              else autoMapGo pl rest cmap used)
            = (if bm = src then specAutoMapGo pl rest cmap used
              else specAutoMapGo pl rest (dictInsert cmap src bm) (bm :: used))
        by_cases hbs : bm = src
        · rw [if_neg (not_not_intro hbs), if_pos hbs]
          exact ih cmap used
        · rw [if_pos hbs, if_neg hbs]
          exact ih (dictInsert cmap src bm) (bm :: used)

/-! ## Structural facts about the greedy loop -/

/-- One-step unfolding of the main loop. -/
theorem autoMapGo_cons (pl : List (String × Lab)) (src : String) (cnt : Nat)
    (rest : List (String × Nat)) (cmap : List (String × String)) (used : List String) :
    autoMapGo pl ((src, cnt) :: rest) cmap used
      = match hex_to_lab src with
        | none => autoMapGo pl rest cmap used
        | some srcLab =>
          match codeBest srcLab used pl with
          | none => autoMapGo pl rest cmap used
          | some (bm, _d) =>
            if bm ≠ src then autoMapGo pl rest (dictInsert cmap src bm) (bm :: used)
            else autoMapGo pl rest cmap used := rfl

/-- Unfolding of the main loop when the source color does not parse. -/
theorem autoMapGo_cons_none (pl : List (String × Lab)) (src : String) (cnt : Nat)
    (rest : List (String × Nat)) (cmap : List (String × String)) (used : List String)
    (h : hex_to_lab src = none) :
    autoMapGo pl ((src, cnt) :: rest) cmap used = autoMapGo pl rest cmap used := by
  rw [autoMapGo_cons, h]

/-- Unfolding of the main loop when the source color parses. -/
theorem autoMapGo_cons_some (pl : List (String × Lab)) (src : String) (cnt : Nat)
    (rest : List (String × Nat)) (cmap : List (String × String)) (used : List String)
    (slab : Lab) (h : hex_to_lab src = some slab) :
    autoMapGo pl ((src, cnt) :: rest) cmap used
      = match codeBest slab used pl with
        | none => autoMapGo pl rest cmap used
        | some (bm, _d) =>
          if bm ≠ src then autoMapGo pl rest (dictInsert cmap src bm) (bm :: used)
          else autoMapGo pl rest cmap used := by
  rw [autoMapGo_cons, h]

/-- Unfolding of the main loop when no palette entry parsed at all. -/
theorem autoMapGo_cons_nobest (pl : List (String × Lab)) (src : String) (cnt : Nat)
    (rest : List (String × Nat)) (cmap : List (String × String)) (used : List String)
    (slab : Lab) (h : hex_to_lab src = some slab) (hcb : codeBest slab used pl = none) :
    autoMapGo pl ((src, cnt) :: rest) cmap used = autoMapGo pl rest cmap used := by
  rw [autoMapGo_cons_some pl src cnt rest cmap used slab h, hcb]

/-- Unfolding of the main loop when the chosen destination equals the
source (self-mapping suppressed, destination not marked used). -/
theorem autoMapGo_cons_skip (pl : List (String × Lab)) (src : String) (cnt : Nat)
    (rest : List (String × Nat)) (cmap : List (String × String)) (used : List String)
    (slab : Lab) (bm : String) (d : ℝ) (h : hex_to_lab src = some slab)
    (hcb : codeBest slab used pl = some (bm, d)) (he : bm = src) :
    autoMapGo pl ((src, cnt) :: rest) cmap used = autoMapGo pl rest cmap used := by
  rw [autoMapGo_cons_some pl src cnt rest cmap used slab h, hcb]
  exact if_neg (not_not_intro he)

/-- Unfolding of the main loop when a destination distinct from the
source is recorded. -/
theorem autoMapGo_cons_step (pl : List (String × Lab)) (src : String) (cnt : Nat)
    (rest : List (String × Nat)) (cmap : List (String × String)) (used : List String)
    (slab : Lab) (bm : String) (d : ℝ) (h : hex_to_lab src = some slab)
    (hcb : codeBest slab used pl = some (bm, d)) (hne : bm ≠ src) :
    autoMapGo pl ((src, cnt) :: rest) cmap used
      = autoMapGo pl rest (dictInsert cmap src bm) (bm :: used) := by
  rw [autoMapGo_cons_some pl src cnt rest cmap used slab h, hcb]
  exact if_pos hne

/-- Entries after a Python-style insertion: an old entry or the new one. -/
theorem dictInsert_mem (cmap : List (String × String)) (k v : String) :
    ∀ kv ∈ dictInsert cmap k v, kv ∈ cmap ∨ kv = (k, v) := by
  induction cmap with
  | nil =>
    intro kv hkv
    right
    simpa [dictInsert] using hkv
  | cons x rest ih =>
    intro kv hkv
    rcases x with ⟨k', v'⟩
    by_cases hk : k' = k
    · rw [dictInsert, if_pos hk] at hkv
      rcases List.mem_cons.mp hkv with h | h
      · right; exact h
      · left; exact List.mem_cons_of_mem _ h
    · rw [dictInsert, if_neg hk] at hkv
      rcases List.mem_cons.mp hkv with h | h
      · left; exact h ▸ List.mem_cons_self _ _
      · rcases ih kv h with h2 | h2
        · left; exact List.mem_cons_of_mem _ h2
        · right; exact h2

/-- Every entry the loop ever produces is an initial entry or has its key
different from its value (the self-mapping guard). -/
theorem autoMapGo_no_self (pl : List (String × Lab)) :
    ∀ (rest : List (String × Nat)) (cmap : List (String × String)) (used : List String),
      (∀ kv ∈ cmap, kv.1 ≠ kv.2) →
      ∀ kv ∈ autoMapGo pl rest cmap used, kv.1 ≠ kv.2 := by
  intro rest
  induction rest with
  | nil => intro cmap used hc kv hkv; exact hc kv hkv
  | cons x rest ih =>
    intro cmap used hc
    rcases x with ⟨src, cnt⟩
    rcases hl : hex_to_lab src with _ | slab
    · rw [autoMapGo_cons_none pl src cnt rest cmap used hl]
      exact ih cmap used hc
    · rw [autoMapGo_cons_some pl src cnt rest cmap used slab hl]
      split
      · exact ih cmap used hc
      · rename_i bm d heq
        split_ifs with hbs
        · refine ih (dictInsert cmap src bm) (bm :: used) ?_
          intro kv hkv
          rcases dictInsert_mem cmap src bm kv hkv with h | h
          · exact hc kv h
          · rw [h]
            exact fun e => hbs e.symm
        · exact ih cmap used hc

/-! ## Parsing and lookup facts feeding the totality/injectivity claims -/

theorem hex_to_lab_of_rgb (s : String) (v : Int × Int × Int)
    (h : hex_to_rgb s = some v) :
    hex_to_lab s = some (rgb_to_lab v.1 v.2.1 v.2.2) := by
  simp [hex_to_lab, h]

/-- When every palette entry parses, the precomputed table keeps exactly
the palette entries, in order. -/
theorem paletteLabs_map_fst (palette : List String)
    (h : ∀ p ∈ palette, (hex_to_rgb p).isSome = true) :
    (palette.filterMap fun p => (hex_to_lab p).map fun l => (p, l)).map Prod.fst
      = palette := by
  induction palette with
  | nil => rfl
  | cons p rest ih =>
    obtain ⟨v, hv⟩ := Option.isSome_iff_exists.mp (h p (List.mem_cons_self p rest))
    have hl : ((fun p => (hex_to_lab p).map fun l => (p, l)) p)
        = some (p, rgb_to_lab v.1 v.2.1 v.2.2) := by
      simp [hex_to_lab_of_rgb p v hv]
    simp only [List.filterMap_cons, hl, List.map_cons]
    rw [ih fun q hq => h q (List.mem_cons_of_mem _ hq)]

theorem minByDist_mem (s : Lab) :
    ∀ (l : List (String × Lab)) (y : String × Lab), minByDist s l = some y → y ∈ l := by
  intro l
  induction l with
  | nil => intro y h; simp [minByDist] at h
  | cons x rest ih =>
    intro y h
    rw [minByDist] at h
    rcases h2 : minByDist s rest with _ | z
    · rw [h2] at h
      have h' : some x = some y := h
      exact List.mem_cons.mpr (Or.inl (Option.some.inj h').symm)
    · rw [h2] at h
      have h' : (if delta_e s z.2 < delta_e s x.2 then some z else some x) = some y := h
      split_ifs at h' with hd
      · have hz : z = y := Option.some.inj h'
        exact List.mem_cons_of_mem _ (ih y (hz ▸ h2))
      · exact List.mem_cons.mpr (Or.inl (Option.some.inj h').symm)

/-- A nonempty parsed palette always yields a destination, and that
destination is the name of one of its entries. -/
theorem codeBest_some_of_ne_nil (s : Lab) (used : List String)
    (pl : List (String × Lab)) (hpl : pl ≠ []) :
    ∃ bm d, codeBest s used pl = some (bm, d) ∧ bm ∈ pl.map Prod.fst := by
  have e1 : scanBest s used pl none = mdist s (pl.filter fun x => x.1 ∉ used) := by
    rw [scanBest_eq_combine]; rfl
  have e2 : scanBest s ([] : List String) pl none = mdist s pl := by
    rw [scanBest_eq_combine, filter_not_mem_nil]; rfl
  unfold codeBest
  rw [e1, e2]
  rcases h : minByDist s (pl.filter fun x => x.1 ∉ used) with _ | y
  · have hm : mdist s (pl.filter fun x => x.1 ∉ used) = none := by
      unfold mdist; rw [h]; rfl
    rw [hm]
    rcases pl with _ | ⟨x, l⟩
    · exact absurd rfl hpl
    · have : ∃ y, minByDist s (x :: l) = some y := by
        rw [minByDist]
        rcases minByDist s l with _ | z
        · exact ⟨x, rfl⟩
        · show ∃ y, (if delta_e s z.2 < delta_e s x.2 then some z else some x) = some y
          split_ifs <;> exact ⟨_, rfl⟩
      obtain ⟨y, hy⟩ := this
      refine ⟨y.1, delta_e s y.2, ?_, ?_⟩
      · unfold mdist; rw [hy]; rfl
      · exact List.mem_map.mpr ⟨y, minByDist_mem s _ y hy, rfl⟩
  · have hm : mdist s (pl.filter fun x => x.1 ∉ used)
        = some (y.1, delta_e s y.2) := by
      unfold mdist; rw [h]; rfl
    rw [hm]
    refine ⟨y.1, delta_e s y.2, rfl, ?_⟩
    have hy := minByDist_mem s _ y h
    exact List.mem_map.mpr ⟨y, List.mem_of_mem_filter hy, rfl⟩

theorem dictInsert_lookup_self (m : List (String × String)) (k v : String) :
    (dictInsert m k v).lookup k = some v := by
  induction m with
  | nil => simp [dictInsert, List.lookup]
  | cons x rest ih =>
    rcases x with ⟨k', v'⟩
    by_cases h : k' = k
    · rw [dictInsert, if_pos h]
      simp [List.lookup]
    · rw [dictInsert, if_neg h]
      have hk : (k == k') = false := beq_eq_false_iff_ne.mpr fun e => h e.symm
      simp [List.lookup, hk, ih]

theorem dictInsert_lookup_mono (m : List (String × String)) (k v k' : String)
    (h : (m.lookup k').isSome = true) :
    ((dictInsert m k v).lookup k').isSome = true := by
  induction m with
  | nil => simp [List.lookup] at h
  | cons x rest ih =>
    rcases x with ⟨k0, v0⟩
    by_cases hk : k0 = k
    · rw [dictInsert, if_pos hk]
      by_cases he : k' = k
      · simp [List.lookup, he]
      · have h1 : (k' == k) = false := beq_eq_false_iff_ne.mpr he
        have h2 : (k' == k0) = false := beq_eq_false_iff_ne.mpr (hk ▸ he)
        rw [List.lookup, h2] at h
        simp [List.lookup, h1, h]
    · rw [dictInsert, if_neg hk]
      by_cases he : k' = k0
      · have h1 : (k' == k0) = true := beq_iff_eq.mpr he
        simp [List.lookup, h1]
      · have h1 : (k' == k0) = false := beq_eq_false_iff_ne.mpr he
        rw [List.lookup, h1] at h
        rw [List.lookup, h1]
        exact ih h

/-- Once a key is present in the accumulator it stays present. -/
theorem autoMapGo_lookup_mono (pl : List (String × Lab)) :
    ∀ (rest : List (String × Nat)) (cmap : List (String × String)) (used : List String)
      (k : String), (cmap.lookup k).isSome = true →
      ((autoMapGo pl rest cmap used).lookup k).isSome = true := by
  intro rest
  induction rest with
  | nil => intro cmap used k h; exact h
  | cons y rest ih =>
    intro cmap used k h
    rcases y with ⟨s0, c0⟩
    rcases hl : hex_to_lab s0 with _ | slab
    · rw [autoMapGo_cons_none pl s0 c0 rest cmap used hl]
      exact ih cmap used k h
    · rcases hcb : codeBest slab used pl with _ | b
      · rw [autoMapGo_cons_nobest pl s0 c0 rest cmap used slab hl hcb]
        exact ih cmap used k h
      · rcases b with ⟨bm, d⟩
        by_cases hbs : bm = s0
        · rw [autoMapGo_cons_skip pl s0 c0 rest cmap used slab bm d hl hcb hbs]
          exact ih cmap used k h
        · rw [autoMapGo_cons_step pl s0 c0 rest cmap used slab bm d hl hcb hbs]
          exact ih (dictInsert cmap s0 bm) (bm :: used) k
            (dictInsert_lookup_mono cmap s0 bm k h)

/-- Any source in the remaining list that parses and is not itself a
palette-entry name ends up as a key of the final mapping. -/
theorem autoMapGo_key_present (pl : List (String × Lab)) (hpl : pl ≠ []) :
    ∀ (rest : List (String × Nat)) (cmap : List (String × String)) (used : List String)
      (src : String) (cnt : Nat), (src, cnt) ∈ rest →
      (hex_to_rgb src).isSome = true → src ∉ pl.map Prod.fst →
      ((autoMapGo pl rest cmap used).lookup src).isSome = true := by
  intro rest
  induction rest with
  | nil => intro cmap used src cnt hmem; simp at hmem
  | cons y rest ih =>
    intro cmap used src cnt hmem hparse hnot
    rcases y with ⟨s0, c0⟩
    rcases List.mem_cons.mp hmem with he | ht
    · injection he with h1 h2
      subst h1
      obtain ⟨v, hv⟩ := Option.isSome_iff_exists.mp hparse
      have hl : hex_to_lab src = some (rgb_to_lab v.1 v.2.1 v.2.2) :=
        hex_to_lab_of_rgb src v hv
      obtain ⟨bm, d, hcb, hbmem⟩ :=
        codeBest_some_of_ne_nil (rgb_to_lab v.1 v.2.1 v.2.2) used pl hpl
      have hne : bm ≠ src := fun e => hnot (e ▸ hbmem)
      rw [autoMapGo_cons_step pl src c0 rest cmap used _ bm d hl hcb hne]
      refine autoMapGo_lookup_mono pl rest _ _ src ?_
      rw [dictInsert_lookup_self]
      rfl
    · rcases hl0 : hex_to_lab s0 with _ | slab0
      · rw [autoMapGo_cons_none pl s0 c0 rest cmap used hl0]
        exact ih cmap used src cnt ht hparse hnot
      · rcases hcb0 : codeBest slab0 used pl with _ | b0
        · rw [autoMapGo_cons_nobest pl s0 c0 rest cmap used slab0 hl0 hcb0]
          exact ih cmap used src cnt ht hparse hnot
        · rcases b0 with ⟨bm0, d0⟩
          by_cases hbs : bm0 = s0
          · rw [autoMapGo_cons_skip pl s0 c0 rest cmap used slab0 bm0 d0 hl0 hcb0 hbs]
            exact ih cmap used src cnt ht hparse hnot
          · rw [autoMapGo_cons_step pl s0 c0 rest cmap used slab0 bm0 d0 hl0 hcb0 hbs]
            exact ih (dictInsert cmap s0 bm0) (bm0 :: used) src cnt ht hparse hnot

end Inkmcp

namespace Inkmcp

/-- Claim C1: `auto_map_colors` implements exactly the greedy assignment
of spec §4.4 — palette LAB values precomputed with unparseable entries
skipped; found colors processed in order with unparseable ones skipped;
each found color assigned the minimal-deltaE unused palette entry, which
is marked used, unless the chosen destination equals the source exactly
(then nothing is recorded); global-closest reuse once no unused entry
remains, still suppressing self-mappings; empty mapping for empty
inputs. -/
theorem auto_map_colors_eq_spec_greedy (found_colors : List (String × Nat))
    (palette : List String) :
    auto_map_colors found_colors palette = spec_auto_map_colors found_colors palette := by
  unfold auto_map_colors spec_auto_map_colors
  split_ifs with h
  · rfl
  · exact autoMapGo_eq_spec _ found_colors [] []

/-- Claim C3: the mapping returned by `auto_map_colors` never contains a
self-mapping: every returned key differs from its value, for every
input. -/
theorem auto_map_colors_no_self_mapping (found_colors : List (String × Nat))
    (palette : List String) :
    (auto_map_colors found_colors palette).all (fun kv => kv.1 != kv.2) = true := by
  rw [List.all_eq_true]
  intro kv hkv
  have h : kv.1 ≠ kv.2 := by
    unfold auto_map_colors at hkv
    split_ifs at hkv
    · simp at hkv
    · exact autoMapGo_no_self _ found_colors [] [] (by simp) kv hkv
  simpa using h

/-- Unfolding of `auto_map_colors` on nonempty inputs. -/
theorem auto_map_colors_ne_empty (found : List (String × Nat)) (palette : List String)
    (hf : found ≠ []) (hp : palette ≠ []) :
    auto_map_colors found palette
      = autoMapGo (palette.filterMap fun p => (hex_to_lab p).map fun l => (p, l))
          found [] [] := by
  rcases found with _ | ⟨a, f⟩
  · exact absurd rfl hf
  rcases palette with _ | ⟨b, p⟩
  · exact absurd rfl hp
  rfl

/-- Claim C2 (as stated) is false: with the palette `["#2171b5"]` and the
found colors `[("#2171b5", 2), ("#000000", 1)]` — all parsing, more found
colors than palette entries — the found color `"#2171b5"` never appears
as a key of the returned mapping, because its chosen destination equals
it and the self-mapping suppression records nothing for it. -/
theorem auto_map_colors_misses_on_palette_color :
    (∀ p ∈ ["#2171b5"], (hex_to_rgb p).isSome = true)
    ∧ (∀ x ∈ [("#2171b5", 2), ("#000000", 1)], (hex_to_rgb x.1).isSome = true)
    ∧ (["#2171b5"] : List String) ≠ []
    ∧ (["#2171b5"] : List String).length < [("#2171b5", 2), ("#000000", 1)].length
    ∧ (auto_map_colors [("#2171b5", 2), ("#000000", 1)] ["#2171b5"]).lookup "#2171b5"
        = none :=
  ⟨by decide, by decide, by decide, by decide, by rfl⟩

/-- Claim C2 (amended): with all found colors and all entries of a
non-empty palette parsing and more found colors than palette entries,
every found color either appears as a key of the returned mapping or is
itself one of the palette entries; the only omission mechanism is the
suppressed self-mapping, which can strike only a found color equal to a
palette entry — every found color outside the palette receives an
assignment (via the reuse fallback once all entries are used). -/
theorem auto_map_colors_key_or_palette_member
    (found : List (String × Nat)) (palette : List String)
    (hpal : palette ≠ [])
    (hp : ∀ p ∈ palette, (hex_to_rgb p).isSome = true)
    (hf : ∀ x ∈ found, (hex_to_rgb x.1).isSome = true)
    (hlen : palette.length < found.length) :
    ∀ x ∈ found,
      ((auto_map_colors found palette).lookup x.1).isSome = true ∨ x.1 ∈ palette := by
  intro x hx
  by_cases hnot : x.1 ∈ palette
  · exact Or.inr hnot
  refine Or.inl ?_
  have hfne : found ≠ [] := by
    intro e
    rw [e] at hlen
    simp at hlen
  rw [auto_map_colors_ne_empty found palette hfne hpal]
  have hfst := paletteLabs_map_fst palette hp
  have hplne : (palette.filterMap fun p => (hex_to_lab p).map fun l => (p, l)) ≠ [] := by
    intro e
    apply hpal
    rw [← hfst, e]
    rfl
  refine autoMapGo_key_present _ hplne found [] [] x.1 x.2 ?_ (hf x hx) ?_
  · simpa using hx
  · rw [hfst]
    exact hnot

/-- Claim C4 fails on the code: `normalize_color` validates the six
characters after `#` with Python's permissive `int(h, 16)`, which accepts
a leading sign; on the input `"#-12345"` it therefore returns the string
`"#-12345"` itself, which is not of the canonical
`#`-plus-six-lowercase-hex-digits form (the function's own docstring
promises "lowercase 6-digit hex, or None").  `"#0x1234"` is returned
likewise. -/
theorem normalize_color_returns_noncanonical :
    normalize_color "#-12345" = some "#-12345"
    ∧ isCanonicalHex "#-12345" = false
    ∧ normalize_color "#0x1234" = some "#0x1234"
    ∧ isCanonicalHex "#0x1234" = false := by
  refine ⟨by decide, by decide, by decide, by decide⟩

/-- Claim C5 fails on the code: `hex_to_rgb` parses the three 2-character
slices with Python's `int(_, 16)`, which accepts signs, so the non-hex
input `"-1-2-3"` does not raise and yields the out-of-range triple
`(-1, -2, -3)` (the docstring promises an RGB tuple in 0–255); a leading
`"##"` is also accepted because `lstrip("#")` removes every leading
`#`. -/
theorem hex_to_rgb_accepts_nonhex :
    hex_to_rgb "-1-2-3" = some (-1, -2, -3)
    ∧ (-1 : Int) < 0
    ∧ hex_to_rgb "##ff0000" = some (255, 0, 0) := by
  refine ⟨by decide, by decide, by decide⟩

/-- Total behaviour of `is_grayscale` as computed (the conversion error
is caught): it returns `false` on every string that fails hex parsing,
and on a string converting to LAB value `lab` it returns `true` exactly
when the chroma `sqrt(a*a + b*b)` is strictly below the threshold
(`15.0` by default in the source). -/
theorem is_grayscale_spec (s : String) (t : ℝ) :
    (hex_to_rgb s = none → is_grayscale s t = false)
    ∧ ∀ lab, hex_to_lab s = some lab → (is_grayscale s t = true ↔ chroma lab < t) := by
  constructor
  · intro h
    have h2 : hex_to_lab s = none := by simp [hex_to_lab, h]
    unfold is_grayscale
    rw [h2]
  · intro lab h
    unfold is_grayscale
    rw [h]
    exact decide_eq_true_iff

/-- A nonpositive channel takes the linear branch of `linearize`. -/
theorem linearize_nonpos (c : Int) (hc : (c : ℝ) ≤ 0) :
    linearize c = (c : ℝ) / 255 / 12.92 := by
  show (if ((c : ℝ) / 255) ≤ 0.04045 then ((c : ℝ) / 255) / 12.92
      else ((((c : ℝ) / 255) + 0.055) / 1.055) ^ (2.4 : ℝ)) = (c : ℝ) / 255 / 12.92
  rw [if_pos]
  have h : (c : ℝ) / 255 ≤ 0 := div_nonpos_iff.mpr (Or.inr ⟨hc, by norm_num⟩)
  linarith

/-- A nonpositive argument takes the linear branch of `labF`. -/
theorem labF_nonpos (t : ℝ) (ht : t ≤ 0) :
    labF t = t / (3 * ((6 : ℝ) / 29) * ((6 : ℝ) / 29)) + 4 / 29 := by
  unfold labF
  rw [if_neg (not_lt.mpr (le_trans ht (by positivity)))]

/-- The LAB chroma of the out-of-range triple `(-1, -2, -3)` is far below
the default grayscale threshold (its exact value is about `0.49`): every
channel is negative, so both `linearize` and `labF` take their linear
branches and the computation stays rational. -/
theorem chroma_neg_triple_small :
    chroma (rgb_to_lab (-1) (-2) (-3)) < 15 := by
  have l1 : linearize (-1) = ((-1 : Int) : ℝ) / 255 / 12.92 :=
    linearize_nonpos _ (by norm_num)
  have l2 : linearize (-2) = ((-2 : Int) : ℝ) / 255 / 12.92 :=
    linearize_nonpos _ (by norm_num)
  have l3 : linearize (-3) = ((-3 : Int) : ℝ) / 255 / 12.92 :=
    linearize_nonpos _ (by norm_num)
  simp only [rgb_to_lab]
  rw [l1, l2, l3,
    labF_nonpos _ (by push_cast; norm_num),
    labF_nonpos _ (by push_cast; norm_num),
    labF_nonpos _ (by push_cast; norm_num)]
  unfold chroma
  rw [Real.sqrt_lt' (by norm_num : (0 : ℝ) < 15)]
  push_cast
  norm_num

/-- Claim C7 fails on the code: the malformed string `"-1-2-3"` is not a
color at all — the module's own `normalize_color` rejects it — yet
`is_grayscale` returns `true` on it instead of the promised `false`: the
permissive `int(_, 16)` slices parse it to the out-of-range triple
`(-1, -2, -3)`, whose LAB chroma (about `0.49`) is below the default
threshold `15.0`. -/
theorem is_grayscale_true_on_malformed :
    normalize_color "-1-2-3" = none
    ∧ hex_to_rgb "-1-2-3" = some (-1, -2, -3)
    ∧ is_grayscale "-1-2-3" 15 = true := by
  refine ⟨by decide, by decide, ?_⟩
  have hlab : hex_to_lab "-1-2-3" = some (rgb_to_lab (-1) (-2) (-3)) :=
    hex_to_lab_of_rgb "-1-2-3" (-1, -2, -3) (by decide)
  exact ((is_grayscale_spec "-1-2-3" 15).2 _ hlab).mpr chroma_neg_triple_small

/-- Counting helper: two `some c` sites among four, the other two not
producing `c`. -/
theorem count_filterMap_two (o1 o2 : Option String) (c : String)
    (h1 : o1 ≠ some c) (h2 : o2 ≠ some c) :
    (([some c, o1, some c, o2] : List (Option String)).filterMap id).count c = 2 := by
  rcases o1 with _ | s1 <;> rcases o2 with _ | s2
  · simp [List.count_cons]
  · have k2 : ¬(s2 == c) = true := fun e => h2 (by rw [beq_iff_eq.mp e])
    simp [List.count_cons, k2]
  · have k1 : ¬(s1 == c) = true := fun e => h1 (by rw [beq_iff_eq.mp e])
    simp [List.count_cons, k1]
  · have k1 : ¬(s1 == c) = true := fun e => h1 (by rw [beq_iff_eq.mp e])
    have k2 : ¬(s2 == c) = true := fun e => h2 (by rw [beq_iff_eq.mp e])
    simp [List.count_cons, k1, k2]

/-- Counting helper: the symmetric site layout. -/
theorem count_filterMap_two' (o1 o2 : Option String) (c : String)
    (h1 : o1 ≠ some c) (h2 : o2 ≠ some c) :
    (([o1, some c, o2, some c] : List (Option String)).filterMap id).count c = 2 := by
  rcases o1 with _ | s1 <;> rcases o2 with _ | s2
  · simp [List.count_cons]
  · have k2 : ¬(s2 == c) = true := fun e => h2 (by rw [beq_iff_eq.mp e])
    simp [List.count_cons, k2]
  · have k1 : ¬(s1 == c) = true := fun e => h1 (by rw [beq_iff_eq.mp e])
    simp [List.count_cons, k1]
  · have k1 : ¬(s1 == c) = true := fun e => h1 (by rw [beq_iff_eq.mp e])
    have k2 : ¬(s2 == c) = true := fun e => h2 (by rw [beq_iff_eq.mp e])
    simp [List.count_cons, k1, k2]
/-- Claim C6: an element whose inline style declares a fill (or stroke)
normalizing to `c` and which also carries a direct fill (resp. stroke)
attribute normalizing to the same `c` contributes 2 to `c`'s count —
the style occurrence and the attribute occurrence are counted
independently, with no per-element deduplication.  (Stated with the
element's other property's sites not also producing `c`, so that the
contribution is exactly the two sites of the doubled property; inserting
the element anywhere into the document raises the count by exactly 2.) -/
theorem extract_colors_double_counts (doc1 doc2 : List SvgElem) (e : SvgElem)
    (c prop otherProp : String)
    (hprop : (prop = "fill" ∧ otherProp = "stroke")
      ∨ (prop = "stroke" ∧ otherProp = "fill"))
    (htag : e.tagIsStr = true)
    (hsf : styleColor prop e = some c)
    (haf : attrColor prop e = some c)
    (hss : styleColor otherProp e ≠ some c)
    (has : attrColor otherProp e ≠ some c) :
    extract_colors (doc1 ++ e :: doc2) c
      = extract_colors doc1 c + 2 + extract_colors doc2 c := by
  unfold extract_colors
  rw [List.flatMap_append, List.flatMap_cons, List.count_append, List.count_append]
  have h2 : (elemColors e).count c = 2 := by
    unfold elemColors
    rw [if_pos htag]
    rcases hprop with ⟨hp1, hp2⟩ | ⟨hp1, hp2⟩
    · subst hp1
      subst hp2
      rw [hsf, haf]
      exact count_filterMap_two _ _ c hss has
    · subst hp1
      subst hp2
      rw [hsf, haf]
      exact count_filterMap_two' _ _ c hss has
  rw [h2]
  omega

/-- Witness for claim C6: a concrete element with `style="fill:#ff0000"`
and `fill="#f00"`, both normalizing to `#ff0000`. -/
theorem extract_colors_double_counts_witness :
    (((("fill" : String) = "fill" ∧ ("stroke" : String) = "stroke")
        ∨ (("fill" : String) = "stroke" ∧ ("stroke" : String) = "fill"))
      ∧ (SvgElem.mk true [("style", "fill:#ff0000"), ("fill", "#f00")]).tagIsStr = true
      ∧ styleColor "fill" (SvgElem.mk true [("style", "fill:#ff0000"), ("fill", "#f00")])
          = some "#ff0000"
      ∧ attrColor "fill" (SvgElem.mk true [("style", "fill:#ff0000"), ("fill", "#f00")])
          = some "#ff0000"
      ∧ styleColor "stroke" (SvgElem.mk true [("style", "fill:#ff0000"), ("fill", "#f00")])
          ≠ some "#ff0000"
      ∧ attrColor "stroke" (SvgElem.mk true [("style", "fill:#ff0000"), ("fill", "#f00")])
          ≠ some "#ff0000")
    ∧ extract_colors ([] ++ (SvgElem.mk true [("style", "fill:#ff0000"), ("fill", "#f00")]) :: [])
        "#ff0000"
      = extract_colors [] "#ff0000" + 2 + extract_colors [] "#ff0000" :=
  ⟨⟨by decide, by decide, by decide, by decide, by decide, by decide⟩,
    extract_colors_double_counts [] [] _ "#ff0000" "fill" "stroke"
      (by decide) (by decide) (by decide) (by decide) (by decide) (by decide)⟩

/-! ### Facts about the cleanup pass -/

theorem lookup_fontstack_map (st : List (String × String)) (k : String)
    (hk : k ≠ "font-family") :
    (st.map fun pv =>
        if pv.1 = "font-family" then (pv.1, PORTABLE_STACK) else pv).lookup k
      = st.lookup k := by
  induction st with
  | nil => rfl
  | cons pv rest ih =>
    rcases pv with ⟨p, v⟩
    by_cases hp : p = "font-family"
    · rw [List.map_cons, if_pos hp]
      have hkp : (k == p) = false := beq_eq_false_iff_ne.mpr fun e => hk (e.trans hp)
      rw [List.lookup, List.lookup, hkp, ih]
    · rw [List.map_cons, if_neg hp]
      rcases hb : (k == p) with _ | _
      · rw [List.lookup, List.lookup, hb, ih]
      · rw [List.lookup, List.lookup, hb]

theorem lookup_fontfam_map (st : List (String × String)) :
    (st.map fun pv =>
        if pv.1 = "font-family" then (pv.1, PORTABLE_STACK) else pv).lookup "font-family"
      = (st.lookup "font-family").map fun _ => PORTABLE_STACK := by
  induction st with
  | nil => rfl
  | cons pv rest ih =>
    rcases pv with ⟨p, v⟩
    by_cases hp : p = "font-family"
    · rw [List.map_cons, if_pos hp]
      have hb : ("font-family" == p) = true := beq_iff_eq.mpr hp.symm
      rw [List.lookup, List.lookup, hb]
      simp
    · rw [List.map_cons, if_neg hp]
      have hb : ("font-family" == p) = false := beq_eq_false_iff_ne.mpr fun e => hp e.symm
      rw [List.lookup, List.lookup, hb, ih]

theorem hasMplFont_normalizeFontElem (e : MElem) :
    hasMplFont (normalizeFontElem e) = false := by
  unfold normalizeFontElem
  by_cases h : hasMplFont e = true
  · rw [if_pos h]
    unfold hasMplFont
    simp only [lookup_fontfam_map]
    rcases hv : e.style.lookup "font-family" with _ | v
    · rfl
    · rfl
  · rw [if_neg h]
    exact Bool.eq_false_iff.mpr h

theorem normalizeFontElem_of_no_font (x : MElem) (h : hasMplFont x = false) :
    normalizeFontElem x = x := by
  unfold normalizeFontElem
  rw [h]
  rfl

theorem normalizeFontElem_idem (e : MElem) :
    normalizeFontElem (normalizeFontElem e) = normalizeFontElem e :=
  normalizeFontElem_of_no_font (normalizeFontElem e) (hasMplFont_normalizeFontElem e)

theorem normalizeFontElem_tag (e : MElem) :
    (normalizeFontElem e).tag = e.tag := by
  unfold normalizeFontElem
  split <;> rfl

theorem resolvedFill_normalizeFontElem (e : MElem) :
    resolvedFill (normalizeFontElem e) = resolvedFill e := by
  unfold normalizeFontElem
  split
  · unfold resolvedFill
    rw [lookup_fontstack_map _ "fill" (by decide)]
  · rfl

theorem isBackgroundRect_normalizeFontElem (cw ch : ℚ) (e : MElem) :
    isBackgroundRect cw ch (normalizeFontElem e) = isBackgroundRect cw ch e := by
  unfold isBackgroundRect
  rw [resolvedFill_normalizeFontElem, normalizeFontElem_tag]
  have hattrs : ∀ a, getAttrM (normalizeFontElem e) a = getAttrM e a := by
    intro a
    unfold normalizeFontElem
    split <;> rfl
  rw [hattrs, hattrs]

theorem removeStyleBlocks_no_style (ra : List (String × String)) (es : List MElem)
    (h : ∀ e ∈ es, e.tag ≠ "style") :
    removeStyleBlocks ⟨ra, es⟩ = (⟨ra, es⟩, 0) := by
  unfold removeStyleBlocks
  have h1 : es.filter (fun e => e.tag = "style") = [] := by
    rw [List.filter_eq_nil_iff]
    intro e he
    simpa using h e he
  have h2 : es.filter (fun e => !(e.tag = "style" : Bool)) = es := by
    rw [List.filter_eq_self]
    intro e he
    simpa using h e he
  have h3 : es.map (inlineRules (([] : List MElem).flatMap MElem.rules)) = es := by
    have hid : inlineRules (([] : List MElem).flatMap MElem.rules) = id :=
      funext fun e => rfl
    rw [hid, List.map_id]
  simp only [h1, h2]
  rw [h3, Nat.sub_self]

/-- Modelled from the spec — claim C9 fails on the spec's own §4.6
algorithm: a style block whose rule gives a full-canvas rect a white
fill is inlined during the first pass's step 2, AFTER step 1 already ran;
the second pass then removes the now-white background rect and reports a
nonzero count. -/
theorem cleanup_not_idempotent_cex :
    (cleanup (MDoc.mk [("width", "100"), ("height", "100")]
        [MElem.mk "rect" [("width", "100"), ("height", "100")] [] [],
         MElem.mk "style" [] [] [CssRule.mk none [("fill", "#ffffff")]]])).2 = 1
    ∧ (cleanup (cleanup (MDoc.mk [("width", "100"), ("height", "100")]
        [MElem.mk "rect" [("width", "100"), ("height", "100")] [] [],
         MElem.mk "style" [] [] [CssRule.mk none [("fill", "#ffffff")]]])).1).2 = 1 := by
  refine ⟨by decide, by decide⟩

/-- Claim C9 (amended): cleanup is idempotent provided the first pass's
style-block inlining cannot manufacture a new white full-canvas rect —
in particular, on every document without an embedded style block a second
cleanup pass performs no mutation and reports a modification count of 0.
(Spec-modelled: the cleanup module is absent from the sources.) -/
theorem cleanup_idempotent_no_style (doc : MDoc)
    (h : ∀ e ∈ doc.elems, e.tag ≠ "style") :
    cleanup (cleanup doc).1 = ((cleanup doc).1, 0) := by
  rcases doc with ⟨ra, elems⟩
  set cw := (canvasDims ⟨ra, elems⟩).1 with hcw
  set ch := (canvasDims ⟨ra, elems⟩).2 with hch
  set L1 := elems.filter (fun e => !isBackgroundRect cw ch e) with hL1
  have hst1 : ∀ e ∈ L1, e.tag ≠ "style" := fun e he => h e (List.mem_of_mem_filter he)
  have hr1 : removeBackgroundRects ⟨ra, elems⟩ = (⟨ra, L1⟩, elems.length - L1.length) := rfl
  have hr2 := removeStyleBlocks_no_style ra L1 hst1
  have hr3 : normalizeFonts ⟨ra, L1⟩
      = (⟨ra, L1.map normalizeFontElem⟩, (L1.filter hasMplFont).length) := rfl
  have hclean1 : cleanup ⟨ra, elems⟩
      = (⟨ra, L1.map normalizeFontElem⟩,
         (elems.length - L1.length) + 0 + (L1.filter hasMplFont).length) := by
    unfold cleanup
    rw [hr1]
    simp only [hr2, hr3]
  rw [hclean1]
  show cleanup ⟨ra, L1.map normalizeFontElem⟩ = (⟨ra, L1.map normalizeFontElem⟩, 0)
  have hcanv : canvasDims ⟨ra, L1.map normalizeFontElem⟩ = canvasDims ⟨ra, elems⟩ := rfl
  have hkeep : (L1.map normalizeFontElem).filter
      (fun e => !isBackgroundRect cw ch e) = L1.map normalizeFontElem := by
    rw [List.filter_eq_self]
    intro x hx
    obtain ⟨e, he, hex⟩ := List.mem_map.mp hx
    have hbg : isBackgroundRect cw ch e = false := by
      have hf := List.of_mem_filter he
      simpa using hf
    rw [← hex, isBackgroundRect_normalizeFontElem, hbg]
    rfl
  have hr1' : removeBackgroundRects ⟨ra, L1.map normalizeFontElem⟩
      = (⟨ra, L1.map normalizeFontElem⟩, 0) := by
    show ((⟨ra, (L1.map normalizeFontElem).filter fun e =>
            !isBackgroundRect cw ch e⟩ : MDoc),
          (L1.map normalizeFontElem).length
            - ((L1.map normalizeFontElem).filter fun e =>
                !isBackgroundRect cw ch e).length)
        = (⟨ra, L1.map normalizeFontElem⟩, 0)
    rw [hkeep, Nat.sub_self]
  have hst2 : ∀ e ∈ L1.map normalizeFontElem, e.tag ≠ "style" := by
    intro x hx
    obtain ⟨e, he, hex⟩ := List.mem_map.mp hx
    rw [← hex, normalizeFontElem_tag]
    exact hst1 e he
  have hr2' := removeStyleBlocks_no_style ra (L1.map normalizeFontElem) hst2
  have hfontnone : (L1.map normalizeFontElem).filter hasMplFont = [] := by
    rw [List.filter_eq_nil_iff]
    intro x hx
    obtain ⟨e, he, hex⟩ := List.mem_map.mp hx
    rw [← hex]
    simp [hasMplFont_normalizeFontElem]
  have hmapidem : (L1.map normalizeFontElem).map normalizeFontElem
      = L1.map normalizeFontElem := by
    rw [List.map_map]
    exact List.map_congr_left fun e _ => normalizeFontElem_idem e
  have hr3' : normalizeFonts ⟨ra, L1.map normalizeFontElem⟩
      = (⟨ra, L1.map normalizeFontElem⟩, 0) := by
    show ((⟨ra, (L1.map normalizeFontElem).map normalizeFontElem⟩ : MDoc),
          ((L1.map normalizeFontElem).filter hasMplFont).length)
        = (⟨ra, L1.map normalizeFontElem⟩, 0)
    rw [hmapidem, hfontnone]
    rfl
  unfold cleanup
  rw [hr1']
  simp only [hr2', hr3']

/-- Witness for the amended claim C9: a concrete document without a
style block (a white full-canvas rect and a matplotlib-font text). -/
theorem cleanup_idempotent_no_style_witness :
    (∀ e ∈ (MDoc.mk [("width", "100"), ("height", "100")]
        [MElem.mk "rect" [("width", "100"), ("height", "100")] [("fill", "#ffffff")] [],
         MElem.mk "text" [] [("font-family", "DejaVu Sans")] []]).elems,
      e.tag ≠ "style")
    ∧ cleanup (cleanup (MDoc.mk [("width", "100"), ("height", "100")]
        [MElem.mk "rect" [("width", "100"), ("height", "100")] [("fill", "#ffffff")] [],
         MElem.mk "text" [] [("font-family", "DejaVu Sans")] []])).1
      = ((cleanup (MDoc.mk [("width", "100"), ("height", "100")]
        [MElem.mk "rect" [("width", "100"), ("height", "100")] [("fill", "#ffffff")] [],
         MElem.mk "text" [] [("font-family", "DejaVu Sans")] []])).1, 0) :=
  ⟨by decide,
   cleanup_idempotent_no_style
     (MDoc.mk [("width", "100"), ("height", "100")]
       [MElem.mk "rect" [("width", "100"), ("height", "100")] [("fill", "#ffffff")] [],
        MElem.mk "text" [] [("font-family", "DejaVu Sans")] []])
     (by decide)⟩

/-! ### Round-trip of canonical hex colors (claim C8) -/

/-- Facts about a lowercase hexadecimal digit character used to drive the
parser and the formatter. -/
theorem lowerHex_facts (c : Char) (h : isLowerHexDigit c = true) :
    isHexDig c = true ∧ isPyWS c = false ∧ c ≠ '#' ∧ c ≠ '+' ∧ c ≠ '-'
    ∧ c ≠ '_' ∧ c ≠ 'x' ∧ c ≠ 'X' ∧ hexVal c < 16
    ∧ hexDigitChar (hexVal c) = c := by
  have hm := of_decide_eq_true h
  fin_cases hm <;> decide

/-- `int(_, 16)` on two lowercase hexadecimal digits. -/
theorem pyInt16_pair (a b : Char) (ha : isLowerHexDigit a = true)
    (hb : isLowerHexDigit b = true) :
    pyInt16 [a, b] = some (Int.ofNat (16 * hexVal a + hexVal b)) := by
  obtain ⟨ha1, ha2, _, ha4, ha5, _, _, _, _, _⟩ := lowerHex_facts a ha
  obtain ⟨hb1, hb2, _, _, _, hb6, hb7, hb8, _, _⟩ := lowerHex_facts b hb
  have hstrip : stripWS [a, b] = [a, b] := by
    simp [stripWS, List.dropWhile_cons, ha2, hb2]
  unfold pyInt16
  rw [hstrip]
  rw [pyIntBody, if_neg ha4, if_neg ha5]
  have hmag : pyIntMag [a, b] = some (16 * hexVal a + hexVal b) := by
    rw [pyIntMag]
    have hcond : (decide (a = '0') && (decide (b = 'x') || decide (b = 'X'))) = false := by
      simp [hb7, hb8]
    rw [hcond, if_neg (by simp)]
    rw [hexSeq, if_pos ha1, hexTail, if_neg hb6, if_pos hb1]
    rfl
  rw [hmag]
  rfl

/-- Python's `02x` formatting of a two-digit value splits into the two
digit characters. -/
theorem format02x_pair : ∀ a : Nat, a < 16 → ∀ b : Nat, b < 16 →
    format02x (Int.ofNat (16 * a + b)) = [hexDigitChar a, hexDigitChar b] := by
  decide

/-- Claim C8: for every canonical 6-digit hex color string (`#`-prefixed,
lowercase — the spec's canonical data-model form), `hex_to_rgb` succeeds
and `rgb_to_hex` of the resulting triple returns the original string. -/
theorem hex_to_rgb_rgb_to_hex_roundtrip (s : String) (h : isCanonicalHex s = true) :
    ∃ v : Int × Int × Int, hex_to_rgb s = some v ∧ rgb_to_hex v.1 v.2.1 v.2.2 = s := by
  rcases s with ⟨data⟩
  unfold isCanonicalHex at h
  split at h
  case h_2 => exact absurd h (by simp)
  case h_1 rest heq =>
    rw [Bool.and_eq_true] at h
    obtain ⟨h1, h2⟩ := h
    have h1' : rest.length = 6 := of_decide_eq_true h1
    rcases rest with _ | ⟨c1, r⟩; · simp at h1'
    rcases r with _ | ⟨c2, r⟩; · simp at h1'
    rcases r with _ | ⟨c3, r⟩; · simp at h1'
    rcases r with _ | ⟨c4, r⟩; · simp at h1'
    rcases r with _ | ⟨c5, r⟩; · simp at h1'
    rcases r with _ | ⟨c6, r⟩; · simp at h1'
    rcases r with _ | ⟨c7, r⟩
    case cons => simp at h1'
    have heqd : data = ['#', c1, c2, c3, c4, c5, c6] := heq
    subst heqd
    simp only [List.all_cons, List.all_nil, Bool.and_eq_true, Bool.and_true] at h2
    obtain ⟨k1, k2, k3, k4, k5, k6⟩ := h2
    obtain ⟨e1, _, e3, _, _, _, _, _, e9, e10⟩ := lowerHex_facts c1 k1
    obtain ⟨_, _, _, _, _, _, _, _, f9, f10⟩ := lowerHex_facts c2 k2
    obtain ⟨_, _, _, _, _, _, _, _, g9, g10⟩ := lowerHex_facts c3 k3
    obtain ⟨_, _, _, _, _, _, _, _, i9, i10⟩ := lowerHex_facts c4 k4
    obtain ⟨_, _, _, _, _, _, _, _, j9, j10⟩ := lowerHex_facts c5 k5
    obtain ⟨_, _, _, _, _, _, _, _, l9, l10⟩ := lowerHex_facts c6 k6
    have hdrop : List.dropWhile (· = '#') ('#' :: c1 :: c2 :: c3 :: c4 :: c5 :: c6 :: [])
        = c1 :: c2 :: c3 :: c4 :: c5 :: c6 :: [] := by
      rw [List.dropWhile_cons_of_pos (by simp), List.dropWhile_cons_of_neg (by simpa using e3)]
    refine ⟨(Int.ofNat (16 * hexVal c1 + hexVal c2),
             Int.ofNat (16 * hexVal c3 + hexVal c4),
             Int.ofNat (16 * hexVal c5 + hexVal c6)), ?_, ?_⟩
    · have ht1 : pyInt16 [c1, c2]
          = some (Int.ofNat (16 * hexVal c1 + hexVal c2)) := pyInt16_pair c1 c2 k1 k2
      have ht2 : pyInt16 [c3, c4]
          = some (Int.ofNat (16 * hexVal c3 + hexVal c4)) := pyInt16_pair c3 c4 k3 k4
      have ht3 : pyInt16 [c5, c6]
          = some (Int.ofNat (16 * hexVal c5 + hexVal c6)) := pyInt16_pair c5 c6 k5 k6
      simp [hex_to_rgb, hdrop, ht1, ht2, ht3]
    · unfold rgb_to_hex
      rw [format02x_pair (hexVal c1) e9 (hexVal c2) f9,
        format02x_pair (hexVal c3) g9 (hexVal c4) i9,
        format02x_pair (hexVal c5) j9 (hexVal c6) l9,
        e10, f10, g10, i10, j10, l10]
      rfl

/-- Witness for claim C8 at the concrete canonical color `"#2171b5"`. -/
theorem hex_to_rgb_rgb_to_hex_roundtrip_witness :
    isCanonicalHex "#2171b5" = true
    ∧ ∃ v : Int × Int × Int, hex_to_rgb "#2171b5" = some v
        ∧ rgb_to_hex v.1 v.2.1 v.2.2 = "#2171b5" :=
  ⟨by decide, hex_to_rgb_rgb_to_hex_roundtrip "#2171b5" (by decide)⟩

/-! ### Injectivity of the mapping when the palette is large enough -/

theorem nodup_subset_length_le (l1 l2 : List String) (hnd : l1.Nodup)
    (hsub : ∀ x ∈ l1, x ∈ l2) : l1.length ≤ l2.length := by
  have h2 : l1.toFinset ⊆ l2.toFinset := by
    intro a ha
    rw [List.mem_toFinset] at ha ⊢
    exact hsub a ha
  calc l1.length = l1.toFinset.card := (List.toFinset_card_of_nodup hnd).symm
    _ ≤ l2.toFinset.card := Finset.card_le_card h2
    _ ≤ l2.length := List.toFinset_card_le l2

theorem minByDist_cons_ne_none (s : Lab) (x : String × Lab) (l : List (String × Lab)) :
    ∃ y, minByDist s (x :: l) = some y := by
  rw [minByDist]
  rcases minByDist s l with _ | z
  · exact ⟨x, rfl⟩
  · show ∃ y, (if delta_e s z.2 < delta_e s x.2 then some z else some x) = some y
    split_ifs <;> exact ⟨_, rfl⟩

/-- When some entry is still unused, the selection comes from the unused
scan: it is an unused entry of the table. -/
theorem codeBest_unused (s : Lab) (used : List String) (pl : List (String × Lab))
    (hne : (pl.filter fun x => x.1 ∉ used) ≠ []) :
    ∃ y, y ∈ pl.filter (fun x => x.1 ∉ used)
      ∧ codeBest s used pl = some (y.1, delta_e s y.2) := by
  have hex : ∃ y, minByDist s (pl.filter fun x => x.1 ∉ used) = some y := by
    rcases hh : pl.filter (fun x => x.1 ∉ used) with _ | ⟨x, l⟩
    · exact absurd hh hne
    · rw [hh]
      exact minByDist_cons_ne_none s x l
  obtain ⟨y, hy⟩ := hex
  refine ⟨y, minByDist_mem s _ y hy, ?_⟩
  have e1 : scanBest s used pl none = mdist s (pl.filter fun x => x.1 ∉ used) := by
    rw [scanBest_eq_combine]; rfl
  have hm : mdist s (pl.filter fun x => x.1 ∉ used) = some (y.1, delta_e s y.2) := by
    unfold mdist; rw [hy]; rfl
  unfold codeBest
  rw [e1, hm]

theorem dictInsert_map_snd_mem (m : List (String × String)) (k v : String) :
    ∀ w ∈ (dictInsert m k v).map Prod.snd, w ∈ m.map Prod.snd ∨ w = v := by
  intro w hw
  obtain ⟨kv, hkv, hkv2⟩ := List.mem_map.mp hw
  rcases dictInsert_mem m k v kv hkv with h | h
  · left
    exact List.mem_map.mpr ⟨kv, h, hkv2⟩
  · right
    rw [← hkv2, h]

theorem dictInsert_map_snd_nodup (m : List (String × String)) (k v : String)
    (hnd : (m.map Prod.snd).Nodup) (hv : v ∉ m.map Prod.snd) :
    ((dictInsert m k v).map Prod.snd).Nodup := by
  induction m with
  | nil => simp [dictInsert]
  | cons x rest ih =>
    rcases x with ⟨k0, v0⟩
    rw [List.map_cons] at hnd hv
    have hv0 : v ≠ v0 := fun e => hv (e ▸ List.mem_cons_self _ _)
    have hvrest : v ∉ rest.map Prod.snd := fun hm => hv (List.mem_cons_of_mem _ hm)
    by_cases hk : k0 = k
    · rw [dictInsert, if_pos hk, List.map_cons]
      exact List.nodup_cons.mpr ⟨hvrest, (List.nodup_cons.mp hnd).2⟩
    · rw [dictInsert, if_neg hk, List.map_cons]
      refine List.nodup_cons.mpr ⟨?_, ih (List.nodup_cons.mp hnd).2 hvrest⟩
      intro hm
      rcases dictInsert_map_snd_mem rest k v v0 hm with h | h
      · exact (List.nodup_cons.mp hnd).1 h
      · exact hv0 h.symm

/-- Main invariant: with pairwise-distinct palette names and enough
palette entries for the remaining sources, the accumulated mapping keeps
pairwise-distinct values drawn from the palette names. -/
theorem autoMapGo_injective (pl : List (String × Lab))
    (hplnd : (pl.map Prod.fst).Nodup) :
    ∀ (rest : List (String × Nat)) (cmap : List (String × String)) (used : List String),
      (∀ kv ∈ cmap, kv.2 ∈ used) →
      (cmap.map Prod.snd).Nodup →
      used.Nodup →
      (∀ u ∈ used, u ∈ pl.map Prod.fst) →
      used.length + rest.length ≤ pl.length →
      ((autoMapGo pl rest cmap used).map Prod.snd).Nodup
      ∧ ∀ kv ∈ autoMapGo pl rest cmap used, kv.2 ∈ pl.map Prod.fst := by
  intro rest
  induction rest with
  | nil =>
    intro cmap used hvu hnd hund husub _hbound
    exact ⟨hnd, fun kv hkv => husub kv.2 (hvu kv hkv)⟩
  | cons x rest ih =>
    intro cmap used hvu hnd hund husub hbound
    rcases x with ⟨src, cnt⟩
    rcases hl : hex_to_lab src with _ | slab
    · rw [autoMapGo_cons_none pl src cnt rest cmap used hl]
      refine ih cmap used hvu hnd hund husub ?_
      simp only [List.length_cons] at hbound
      omega
    · -- some unused entry must exist: counting
      have hlt : used.length < pl.length := by
        simp only [List.length_cons] at hbound
        omega
      have hexu : ∃ e ∈ pl, e.1 ∉ used := by
        by_contra hall
        push_neg at hall
        have hsub : ∀ u ∈ pl.map Prod.fst, u ∈ used := by
          intro u hu
          obtain ⟨e, he, he2⟩ := List.mem_map.mp hu
          exact he2 ▸ hall e he
        have := nodup_subset_length_le _ _ hplnd hsub
        rw [List.length_map] at this
        omega
      obtain ⟨e, he, heu⟩ := hexu
      have hfne : (pl.filter fun x => x.1 ∉ used) ≠ [] := by
        intro hnil
        have hmem : e ∈ pl.filter (fun x => x.1 ∉ used) :=
          List.mem_filter.mpr ⟨he, by simpa using heu⟩
        rw [hnil] at hmem
        simp at hmem
      obtain ⟨y, hyf, hcb⟩ := codeBest_unused slab used pl hfne
      have hyin := List.mem_filter.mp hyf
      have hbm_not_used : y.1 ∉ used := by simpa using hyin.2
      have hbm_names : y.1 ∈ pl.map Prod.fst := List.mem_map.mpr ⟨y, hyin.1, rfl⟩
      by_cases hbs : y.1 = src
      · rw [autoMapGo_cons_skip pl src cnt rest cmap used slab y.1 _ hl hcb hbs]
        refine ih cmap used hvu hnd hund husub ?_
        simp only [List.length_cons] at hbound
        omega
      · rw [autoMapGo_cons_step pl src cnt rest cmap used slab y.1 _ hl hcb hbs]
        have hbm_not_val : y.1 ∉ cmap.map Prod.snd := by
          intro hm
          obtain ⟨kv, hkv, hkv2⟩ := List.mem_map.mp hm
          exact hbm_not_used (hkv2 ▸ hvu kv hkv)
        refine ih (dictInsert cmap src y.1) (y.1 :: used) ?_ ?_ ?_ ?_ ?_
        · intro kv hkv
          rcases dictInsert_mem cmap src y.1 kv hkv with h | h
          · exact List.mem_cons_of_mem _ (hvu kv h)
          · rw [h]
            exact List.mem_cons_self _ _
        · exact dictInsert_map_snd_nodup cmap src y.1 hnd hbm_not_val
        · exact List.nodup_cons.mpr ⟨hbm_not_used, hund⟩
        · intro u hu
          rcases List.mem_cons.mp hu with h | h
          · exact h ▸ hbm_names
          · exact husub u h
        · simp only [List.length_cons] at hbound ⊢
          omega

/-- Claim C10 (as stated) is false when the palette repeats an entry:
with palette `["#2171b5", "#2171b5"]` (all parsing) and two parsing found
colors, the first source consumes the first copy of the entry, the second
scan finds all names used, and the fallback reuses the same destination —
two distinct sources map to one destination although there are no more
found colors than palette entries. -/
theorem auto_map_colors_not_injective_cex :
    (∀ p ∈ ["#2171b5", "#2171b5"], (hex_to_rgb p).isSome = true)
    ∧ (∀ x ∈ [("#ff0000", 2), ("#000000", 1)], (hex_to_rgb x.1).isSome = true)
    ∧ [("#ff0000", 2), ("#000000", 1)].length ≤ (["#2171b5", "#2171b5"] : List String).length
    ∧ ¬ ((auto_map_colors [("#ff0000", 2), ("#000000", 1)]
          ["#2171b5", "#2171b5"]).map Prod.snd).Nodup := by
  have sb : ∀ s : Lab,
      scanBest s []
        [("#2171b5", rgb_to_lab 33 113 181), ("#2171b5", rgb_to_lab 33 113 181)] none
      = some ("#2171b5", delta_e s (rgb_to_lab 33 113 181)) := by
    intro s
    simp [scanBest, lt_self_iff_false]
  have cb1 : codeBest (rgb_to_lab 255 0 0) []
      [("#2171b5", rgb_to_lab 33 113 181), ("#2171b5", rgb_to_lab 33 113 181)]
      = some ("#2171b5", delta_e (rgb_to_lab 255 0 0) (rgb_to_lab 33 113 181)) := by
    unfold codeBest
    rw [sb (rgb_to_lab 255 0 0)]
  have s2 : scanBest (rgb_to_lab 0 0 0) ["#2171b5"]
      [("#2171b5", rgb_to_lab 33 113 181), ("#2171b5", rgb_to_lab 33 113 181)] none
      = none := rfl
  have cb2 : codeBest (rgb_to_lab 0 0 0) ["#2171b5"]
      [("#2171b5", rgb_to_lab 33 113 181), ("#2171b5", rgb_to_lab 33 113 181)]
      = some ("#2171b5", delta_e (rgb_to_lab 0 0 0) (rgb_to_lab 33 113 181)) := by
    unfold codeBest
    rw [s2, sb (rgb_to_lab 0 0 0)]
  have emap : auto_map_colors [("#ff0000", 2), ("#000000", 1)] ["#2171b5", "#2171b5"]
      = [("#ff0000", "#2171b5"), ("#000000", "#2171b5")] := by
    have e0 : auto_map_colors [("#ff0000", 2), ("#000000", 1)] ["#2171b5", "#2171b5"]
        = autoMapGo
            [("#2171b5", rgb_to_lab 33 113 181), ("#2171b5", rgb_to_lab 33 113 181)]
            [("#ff0000", 2), ("#000000", 1)] [] [] := rfl
    rw [e0,
      autoMapGo_cons_step _ "#ff0000" 2 [("#000000", 1)] [] [] (rgb_to_lab 255 0 0)
        "#2171b5" _ rfl cb1 (by decide),
      autoMapGo_cons_step _ "#000000" 1 [] _ _ (rgb_to_lab 0 0 0)
        "#2171b5" _ rfl cb2 (by decide)]
    rfl
  refine ⟨by decide, by decide, by decide, ?_⟩
  rw [emap]
  decide

/-- Claim C10 (amended): if additionally the palette entries are pairwise
distinct, then — every found color and every palette entry parsing and
the number of found colors at most the number of palette entries — the
returned mapping is injective (no destination repeats) and every
destination is a palette entry. -/
theorem auto_map_colors_injective_of_nodup_palette
    (found : List (String × Nat)) (palette : List String)
    (hp : ∀ p ∈ palette, (hex_to_rgb p).isSome = true)
    (hf : ∀ x ∈ found, (hex_to_rgb x.1).isSome = true)
    (hnd : palette.Nodup)
    (hlen : found.length ≤ palette.length) :
    ((auto_map_colors found palette).map Prod.snd).Nodup
    ∧ ∀ kv ∈ auto_map_colors found palette, kv.2 ∈ palette := by
  rcases found with _ | ⟨a, f⟩
  · constructor
    · rw [show auto_map_colors [] palette = [] from rfl]
      exact List.nodup_nil
    · intro kv hkv
      rw [show auto_map_colors [] palette = [] from rfl] at hkv
      simp at hkv
  · have hpne : palette ≠ [] := by
      intro e
      rw [e] at hlen
      simp at hlen
    rw [auto_map_colors_ne_empty (a :: f) palette (by simp) hpne]
    have hfst := paletteLabs_map_fst palette hp
    have hplnd :
        ((palette.filterMap fun p => (hex_to_lab p).map fun l => (p, l)).map
          Prod.fst).Nodup := by
      rw [hfst]; exact hnd
    have hlen2 :
        (palette.filterMap fun p => (hex_to_lab p).map fun l => (p, l)).length
          = palette.length := by
      have h := congrArg List.length hfst
      rw [List.length_map] at h
      exact h
    have hres := autoMapGo_injective _ hplnd (a :: f) [] []
      (by simp) (by simp) List.nodup_nil (by simp)
      (by simpa [hlen2] using hlen)
    refine ⟨hres.1, fun kv hkv => ?_⟩
    rw [← hfst]
    exact hres.2 kv hkv

/-- Witness for the amended claim C10 at a concrete input. -/
theorem auto_map_colors_injective_of_nodup_palette_witness :
    ((∀ p ∈ ["#2171b5", "#e6550d"], (hex_to_rgb p).isSome = true)
      ∧ (∀ x ∈ [("#ff0000", 3)], (hex_to_rgb x.1).isSome = true)
      ∧ (["#2171b5", "#e6550d"] : List String).Nodup
      ∧ [("#ff0000", 3)].length ≤ (["#2171b5", "#e6550d"] : List String).length)
    ∧ ((auto_map_colors [("#ff0000", 3)] ["#2171b5", "#e6550d"]).map Prod.snd).Nodup
    ∧ ∀ kv ∈ auto_map_colors [("#ff0000", 3)] ["#2171b5", "#e6550d"],
        kv.2 ∈ (["#2171b5", "#e6550d"] : List String) :=
  ⟨⟨by decide, by decide, by decide, by decide⟩,
    auto_map_colors_injective_of_nodup_palette [("#ff0000", 3)] ["#2171b5", "#e6550d"]
      (by decide) (by decide) (by decide) (by decide)⟩

/-- Witness for the amended claim C2 at a concrete input. -/
theorem auto_map_colors_key_or_palette_member_witness :
    ((["#2171b5"] : List String) ≠ []
      ∧ (∀ p ∈ ["#2171b5"], (hex_to_rgb p).isSome = true)
      ∧ (∀ x ∈ [("#ff0000", 2), ("#000000", 1)], (hex_to_rgb x.1).isSome = true)
      ∧ (["#2171b5"] : List String).length < [("#ff0000", 2), ("#000000", 1)].length)
    ∧ ∀ x ∈ [("#ff0000", 2), ("#000000", 1)],
        ((auto_map_colors [("#ff0000", 2), ("#000000", 1)] ["#2171b5"]).lookup x.1).isSome
            = true
          ∨ x.1 ∈ (["#2171b5"] : List String) :=
  ⟨⟨by decide, by decide, by decide, by decide⟩,
    auto_map_colors_key_or_palette_member
      [("#ff0000", 2), ("#000000", 1)] ["#2171b5"]
      (by decide) (by decide) (by decide) (by decide)⟩

end Inkmcp
